import Mathlib

/-
Verification of the mail_order filename-classification and batch-relocation
pipeline.  The repository carries two near-duplicate revisions of the logic:

  * the standalone binary in src/main.rs (its own ProcessError enum with
    kinds Extension/Parts/Date/Path/Copy, an iterator-based stem split, no
    per-field range check, and a handle loop that panics on unreadable
    directory entries and propagates every relocation failure), and

  * the newer module family src/utils.rs + src/error.rs + src/constants.rs
    (ProcessError with kinds Extension/Parts/Separator/Date/IO, a
    split_once-based stem split, upper-bound field validation against
    VALID_DAYS/VALID_MONTHS/VALID_YEARS, and a handle that filters out
    unreadable entries and collects per-entry results).

Both revisions are embedded below.  File names are lists of characters;
filesystem paths are lists of path components.  Rust std path operations
(Path::extension, Path::file_stem, PathBuf::with_extension, str::split_once,
str::split, str::parse::<u16>) are modelled on plain file-name strings,
which is faithful for the ordinary file names the pipeline handles.
Filesystem effects (create_dir_all, copy, remove_file) are modelled by a
per-entry success oracle carried on the directory entry, and each processed
entry yields a trace recording which effects were attempted and whether the
source file was removed.
-/

namespace MailOrder

/-- A file-name or path-component string, as a list of characters. -/
abbrev Str := List Char

/-- A filesystem path, as a list of components. -/
abbrev RPath := List Str

/-- constants.rs: SEPARATOR. -/
def SEPARATOR : Char := '_'

/-- constants.rs: DATE_LENGTH. -/
def DATE_LENGTH : Nat := 8

/-- constants.rs: VALID_DAYS. -/
def VALID_DAYS : Nat := 31

/-- constants.rs: VALID_MONTHS. -/
def VALID_MONTHS : Nat := 12

/-- constants.rs: VALID_YEARS. -/
def VALID_YEARS : Nat := 2099

/-- error.rs ProcessError of the utils.rs revision.  The IO payload is
dropped; no claim depends on the wrapped io error value.  Note that the io
variant is never constructed by the utils.rs code that is embedded here,
exactly as in the source, where the From impl for io errors is never
exercised by handle. -/
inductive ProcessError where
  | extension
  | parts
  | separator
  | date
  | io
deriving DecidableEq

/-- ProcessError of the standalone main.rs revision (message strings
dropped; they carry no structure a claim depends on). -/
inductive ProcessErrorM where
  | extension
  | parts
  | date
  | path
  | copy
deriving DecidableEq

/-- Split a string at its last dot: some (before, after) when a dot exists,
none otherwise.  Models locating the final extension dot of a file name. -/
def splitLastDot : Str → Option (Str × Str)
  | [] => none
  | c :: rest =>
    match splitLastDot rest with
    | some (b, a) => some (c :: b, a)
    | none => if c = '.' then some ([], rest) else none

/-- Rust Path::file_stem / Path::extension on a plain file name: the name
splits at its final dot unless that dot is the leading character (hidden
files with a single leading dot keep the whole name as stem and have no
extension). -/
def fileStemExt (name : Str) : Str × Option Str :=
  match splitLastDot name with
  | some (b, a) => if b = [] then (name, none) else (b, some a)
  | none => (name, none)

/-- Rust str::split_once: split at the first occurrence of sep. -/
def splitOnce (sep : Char) : Str → Option (Str × Str)
  | [] => none
  | c :: rest =>
    if c = sep then some ([], rest)
    else
      match splitOnce sep rest with
      | some (b, a) => some (c :: b, a)
      | none => none

/-- Rust str::split collected into a list: the separator-delimited
segments, never empty (an input with no separator yields one segment). -/
def splitAll (sep : Char) : Str → List Str
  | [] => [[]]
  | c :: rest =>
    if c = sep then [] :: splitAll sep rest
    else
      match splitAll sep rest with
      | s :: ss => (c :: s) :: ss
      | [] => [[c]]

/-- Numeric value of an ASCII digit character. -/
def digitVal (c : Char) : Nat := c.toNat - 48

/-- Accumulating decimal evaluation, mirroring how a digit string denotes a
number. -/
def natOfDigitsAux : Nat → Str → Nat
  | acc, [] => acc
  | acc, c :: rest => natOfDigitsAux (acc * 10 + digitVal c) rest

/-- The number denoted by a decimal digit string. -/
def natOfDigits (s : Str) : Nat := natOfDigitsAux 0 s

/-- Rust str::parse::<u16> restricted to the plain-digit inputs this
program feeds it: succeeds on a non-empty all-digit string whose value fits
in sixteen bits, fails otherwise. -/
def parseU16 (s : Str) : Option Nat :=
  if s ≠ [] ∧ s.all Char.isDigit = true ∧ natOfDigits s ≤ 65535 then
    some (natOfDigits s)
  else none

/-- utils.rs is_valid_range: the field parses as a u16 not exceeding max. -/
def is_valid_range (input : Str) (max : Nat) : Bool :=
  match parseU16 input with
  | some n => decide (n ≤ max)
  | none => false

/-- utils.rs is_valid_fmt: exactly DATE_LENGTH characters, all ASCII
digits. -/
def is_valid_fmt (date : Str) : Bool :=
  date.length == DATE_LENGTH && date.all Char.isDigit

/-- utils.rs validate: format check, failing with the Date error. -/
def validate (date : Str) : Except ProcessError Str :=
  if is_valid_fmt date then .ok date else .error .date

/-- utils.rs parse_date: slice the 8-digit string into day [0..2],
month [2..4], year [4..] and range-check each field against its ceiling. -/
def parse_date (date : Str) : Except ProcessError (Str × Str × Str) :=
  let day := date.take 2
  let month := (date.drop 2).take 2
  let year := date.drop 4
  if is_valid_range day VALID_DAYS && is_valid_range month VALID_MONTHS
      && is_valid_range year VALID_YEARS then
    .ok (day, month, year)
  else .error .date

/-- utils.rs extract_suffix: Path::extension, failing with the Extension
error when the name has none. -/
def extract_suffix (name : Str) : Except ProcessError Str :=
  match (fileStemExt name).2 with
  | some e => .ok e
  | none => .error .extension

/-- utils.rs split_into_parent_date: split the stem once at SEPARATOR,
failing with the Separator error when the stem has no separator.  The
stem-decoding Parts failure of the source cannot occur here because the
model works on decoded strings. -/
def split_into_parent_date (name : Str) : Except ProcessError (Str × Str) :=
  match splitOnce SEPARATOR (fileStemExt name).1 with
  | some p => .ok p
  | none => .error .separator

/-- Rust PathBuf::with_extension applied to a path whose last component is
the plain file name about: replace the current extension of that component
(an empty new extension just drops the old one). -/
def setExtName (about ext : Str) : Str :=
  if ext = [] then (fileStemExt about).1 else (fileStemExt about).1 ++ '.' :: ext

/-- utils.rs extract_dst_path: suffix, then the source parent, then
split / validate / parse of the stem, composing
target/year/month/day/about.suffix.  The parent of a listed file always
exists, so the parent lookup of the source never fails here and the parent
path is a parameter. -/
def extract_dst_path (parent : RPath) (name : Str) (target : RPath) :
    Except ProcessError (RPath × RPath) :=
  match extract_suffix name with
  | .error e => .error e
  | .ok suffix =>
    match split_into_parent_date name with
    | .error e => .error e
    | .ok (about, date) =>
      match validate date with
      | .error e => .error e
      | .ok valid_date =>
        match parse_date valid_date with
        | .error e => .error e
        | .ok (day, month, year) =>
          .ok (parent, target ++ [year, month, day, setExtName about suffix])

/-- main.rs lines 95-109: the tail of extract_dst_path after the stem has
been split into about and iso_date — the 8-digit all-ASCII-digit format
check (failing with the Date error) followed directly by the slices and the
composition of target/year/month/day/about.suffix; this revision performs
no per-field range check. -/
def composeM (target : RPath) (about iso ext : Str) :
    Except ProcessErrorM RPath :=
  if iso.length == 8 && iso.all Char.isDigit then
    .ok (target ++ [iso.drop 4, (iso.drop 2).take 2, iso.take 2, setExtName about ext])
  else .error .date

/-- main.rs extract_dst_path: extension, stem, then the first two segments
of the stem split on the underscore (about and iso_date, each missing
segment failing with the Parts error), then composeM.  main.rs hardcodes
the underscore character, which is exactly the value of SEPARATOR. -/
def extract_dst_path_main (name : Str) (target : RPath) :
    Except ProcessErrorM RPath :=
  match (fileStemExt name).2 with
  | none => .error .extension
  | some suffix =>
    let parts := splitAll SEPARATOR (fileStemExt name).1
    match parts.get? 0 with
    | none => .error .parts
    | some about =>
      match parts.get? 1 with
      | none => .error .parts
      | some iso => composeM target about iso suffix

/-- One entry of a directory listing, with the oracle for the outcomes of
the filesystem calls that the batch step may issue for it: whether the
listing yielded the entry without error, and whether create_dir_all, copy
and remove_file would succeed on it. -/
structure DirEntry where
  readable : Bool
  name : Str
  mkdirOk : Bool
  copyOk : Bool
  removeOk : Bool
deriving DecidableEq

/-- The filesystem effects recorded for one entry that reached the
relocation stage: which calls were attempted, and whether the source file
was actually removed. -/
structure EntryTrace where
  name : Str
  mkdirAttempted : Bool
  copyAttempted : Bool
  removeAttempted : Bool
  removed : Bool
deriving DecidableEq

/-- utils.rs handle: filter_map drops unreadable entries; each remaining
entry is classified, and on classification success create_dir_all runs on
the returned parent, copy runs only when create_dir_all succeeded (and_then),
and remove_file is then attempted unconditionally because the io result of
the create/copy stage is only mapped over, never propagated.  Collecting
into Result short-circuits at the first classification error; io failures
never surface.  Returns the batch outcome (none for Ok) and the traces of
the entries whose relocation stage ran. -/
def handleU (parent target : RPath) : List DirEntry → Option ProcessError × List EntryTrace
  | [] => (none, [])
  | e :: rest =>
    if e.readable then
      match extract_dst_path parent e.name target with
      | .error pe => (some pe, [])
      | .ok _ =>
        let t : EntryTrace :=
          { name := e.name, mkdirAttempted := true, copyAttempted := e.mkdirOk,
            removeAttempted := true, removed := e.removeOk }
        let r := handleU parent target rest
        (r.1, t :: r.2)
    else handleU parent target rest

/-- Outcome of the main.rs handle loop: clean return, an error return, or
a panic from the expect on an unreadable directory entry. -/
inductive BatchOutcomeM where
  | ok
  | err (e : ProcessErrorM)
  | panics
deriving DecidableEq

/-- main.rs process plus the remove that follows it in handle: mkdir, then
copy only when mkdir succeeded (each io failure mapped to Path or Copy),
then remove_file (failure mapped to Path).  Returns the first error, if
any, together with the effect trace of the entry. -/
def relocateM (e : DirEntry) : Option ProcessErrorM × EntryTrace :=
  if e.mkdirOk then
    if e.copyOk then
      if e.removeOk then
        (none, ⟨e.name, true, true, true, true⟩)
      else (some .path, ⟨e.name, true, true, true, false⟩)
    else (some .copy, ⟨e.name, true, true, false, false⟩)
  else (some .path, ⟨e.name, true, false, false, false⟩)

/-- main.rs handle: an empty listing returns Ok; each entry is unwrapped
with expect (panicking when the listing could not read it), classified, and
relocated, and any classification or io failure stops the loop and is
returned to the caller. -/
def handleM (target : RPath) : List DirEntry → BatchOutcomeM × List EntryTrace
  | [] => (.ok, [])
  | e :: rest =>
    if e.readable then
      match extract_dst_path_main e.name target with
      | .error pe => (.err pe, [])
      | .ok _ =>
        match relocateM e with
        | (some pe, t) => (.err pe, [t])
        | (none, t) =>
          let r := handleM target rest
          (r.1, t :: r.2)
    else (.panics, [])

end MailOrder

namespace MailOrder

/-- A string without a dot has no last-dot split. -/
theorem splitLastDot_of_not_mem {s : Str} (h : '.' ∉ s) : splitLastDot s = none := by
  induction s with
  | nil => rfl
  | cons c rest ih =>
    have hc : ¬ c = '.' := fun hc => h (hc ▸ List.mem_cons_self c rest)
    have hr : '.' ∉ rest := fun hr => h (List.mem_cons_of_mem c hr)
    simp [splitLastDot, ih hr, hc]

/-- Appending a dot and a dot-free tail splits exactly there. -/
theorem splitLastDot_append {A E : Str} (hE : '.' ∉ E) :
    splitLastDot (A ++ '.' :: E) = some (A, E) := by
  induction A with
  | nil => simp [splitLastDot, splitLastDot_of_not_mem hE]
  | cons c A ih => simp [splitLastDot, ih]

/-- Stem and extension of a name built from a non-empty stem, a dot, and a
dot-free extension. -/
theorem fileStemExt_append {A E : Str} (hA : A ≠ []) (hE : '.' ∉ E) :
    fileStemExt (A ++ '.' :: E) = (A, some E) := by
  simp [fileStemExt, splitLastDot_append hE, hA]

/-- A dot-free name is all stem, with no extension. -/
theorem fileStemExt_of_not_mem {s : Str} (h : '.' ∉ s) :
    fileStemExt s = (s, none) := by
  simp [fileStemExt, splitLastDot_of_not_mem h]

/-- split_once fails on a string not containing the separator. -/
theorem splitOnce_of_not_mem {sep : Char} {s : Str} (h : sep ∉ s) :
    splitOnce sep s = none := by
  induction s with
  | nil => rfl
  | cons c rest ih =>
    have hc : ¬ c = sep := fun hc => h (hc ▸ List.mem_cons_self c rest)
    have hr : sep ∉ rest := fun hr => h (List.mem_cons_of_mem c hr)
    simp [splitOnce, hc, ih hr]

/-- split_once splits at the first separator occurrence. -/
theorem splitOnce_append {sep : Char} {a b : Str} (h : sep ∉ a) :
    splitOnce sep (a ++ sep :: b) = some (a, b) := by
  induction a with
  | nil => simp [splitOnce]
  | cons c a ih =>
    have hc : ¬ c = sep := fun hc => h (hc ▸ List.mem_cons_self c a)
    have ha : sep ∉ a := fun ha => h (List.mem_cons_of_mem c ha)
    simp [splitOnce, hc, ih ha]

/-- Inversion for a successful split_once: the input decomposes at a first
occurrence of the separator. -/
theorem splitOnce_eq_some {sep : Char} {s a b : Str}
    (h : splitOnce sep s = some (a, b)) : s = a ++ sep :: b ∧ sep ∉ a := by
  induction s generalizing a b with
  | nil => simp [splitOnce] at h
  | cons c rest ih =>
    by_cases hc : c = sep
    · subst hc
      simp [splitOnce] at h
      obtain ⟨ha, hb⟩ := h
      subst ha; subst hb
      exact ⟨rfl, List.not_mem_nil _⟩
    · simp only [splitOnce, if_neg hc] at h
      cases hr : splitOnce sep rest with
      | none => rw [hr] at h; simp at h
      | some p =>
        rw [hr] at h
        obtain ⟨b', a'⟩ := p
        simp at h
        obtain ⟨ha, hb⟩ := h
        obtain ⟨hs, hm⟩ := ih hr
        subst hb
        constructor
        · rw [← ha, hs]; rfl
        · rw [← ha]
          intro hmem
          rcases List.mem_cons.mp hmem with h1 | h1
          · exact hc h1.symm
          · exact hm h1

/-- A successful split_once implies the separator occurs in the input. -/
theorem splitOnce_isSome_of_mem {sep : Char} {s : Str} (h : sep ∈ s) :
    ∃ p, splitOnce sep s = some p := by
  induction s with
  | nil => cases h
  | cons c rest ih =>
    by_cases hc : c = sep
    · exact ⟨([], rest), by simp [splitOnce, hc]⟩
    · have hr : sep ∈ rest := by
        rcases List.mem_cons.mp h with h1 | h1
        · exact absurd h1.symm hc
        · exact h1
      obtain ⟨p, hp⟩ := ih hr
      exact ⟨(c :: p.1, p.2), by simp [splitOnce, hc, hp]⟩

/-- str::split on a separator-free string yields that string alone. -/
theorem splitAll_of_not_mem {sep : Char} {s : Str} (h : sep ∉ s) :
    splitAll sep s = [s] := by
  induction s with
  | nil => rfl
  | cons c rest ih =>
    have hc : ¬ c = sep := fun hc => h (hc ▸ List.mem_cons_self c rest)
    have hr : sep ∉ rest := fun hr => h (List.mem_cons_of_mem c hr)
    simp [splitAll, hc, ih hr]

/-- str::split peels off the segment before the first separator. -/
theorem splitAll_append {sep : Char} {a b : Str} (h : sep ∉ a) :
    splitAll sep (a ++ sep :: b) = a :: splitAll sep b := by
  induction a with
  | nil => simp [splitAll]
  | cons c a ih =>
    have hc : ¬ c = sep := fun hc => h (hc ▸ List.mem_cons_self c a)
    have ha : sep ∉ a := fun ha => h (List.mem_cons_of_mem c ha)
    simp [splitAll, hc, ih ha]

/-- The segment of a string before its first SEPARATOR (the whole string
when no separator occurs): the first element that str::split yields. -/
def firstPart (s : Str) : Str :=
  match splitOnce SEPARATOR s with
  | some p => p.1
  | none => s

/-- The first str::split segment is the part before the first separator. -/
theorem splitAll_get_zero (s : Str) :
    (splitAll SEPARATOR s).get? 0 = some (firstPart s) := by
  cases h : splitOnce SEPARATOR s with
  | none =>
    have hm : SEPARATOR ∉ s := by
      intro hmem
      obtain ⟨p, hp⟩ := splitOnce_isSome_of_mem hmem
      rw [h] at hp; exact Option.noConfusion hp
    simp [splitAll_of_not_mem hm, firstPart, h]
  | some p =>
    obtain ⟨a, b⟩ := p
    obtain ⟨hs, hm⟩ := splitOnce_eq_some h
    rw [hs, splitAll_append hm]
    simp [firstPart, splitOnce_append hm]

end MailOrder

namespace MailOrder

/-- An ASCII digit character has a code point between 48 and 57. -/
theorem toNat_bounds_of_isDigit {c : Char} (h : c.isDigit = true) :
    48 ≤ c.toNat ∧ c.toNat ≤ 57 := by
  simp [Char.isDigit] at h
  obtain ⟨h1, h2⟩ := h
  have g1 : (48 : UInt32).toNat ≤ c.val.toNat := h1
  have g2 : c.val.toNat ≤ (57 : UInt32).toNat := h2
  have e1 : (48 : UInt32).toNat = 48 := rfl
  have e2 : (57 : UInt32).toNat = 57 := rfl
  have e3 : c.toNat = c.val.toNat := rfl
  rw [e1] at g1; rw [e2] at g2; rw [e3]
  exact ⟨g1, g2⟩

/-- The numeric value of an ASCII digit is at most nine. -/
theorem digitVal_le_nine {c : Char} (h : c.isDigit = true) : digitVal c ≤ 9 := by
  obtain ⟨h1, h2⟩ := toNat_bounds_of_isDigit h
  simp only [digitVal]
  omega

/-- Unfolding equation for the empty digit string. -/
theorem natOfDigitsAux_nil (acc : Nat) : natOfDigitsAux acc [] = acc := rfl

/-- Unfolding equation for a leading digit. -/
theorem natOfDigitsAux_cons (acc : Nat) (c : Char) (rest : Str) :
    natOfDigitsAux acc (c :: rest) = natOfDigitsAux (acc * 10 + digitVal c) rest := rfl

/-- Decimal evaluation of an all-digit string is bounded by the power of
ten of its length, for any accumulator. -/
theorem natOfDigitsAux_lt {s : Str} (hd : s.all Char.isDigit = true) :
    ∀ acc, natOfDigitsAux acc s < (acc + 1) * 10 ^ s.length := by
  induction s with
  | nil =>
    intro acc
    rw [natOfDigitsAux_nil]
    simp
  | cons c rest ih =>
    intro acc
    have hc : c.isDigit = true := by
      have := (List.all_eq_true.mp hd) c (List.mem_cons_self c rest)
      simpa using this
    have hrest : rest.all Char.isDigit = true := by
      rw [List.all_eq_true]
      intro x hx
      exact (List.all_eq_true.mp hd) x (List.mem_cons_of_mem c hx)
    have h9 := digitVal_le_nine hc
    have hrec := ih hrest (acc * 10 + digitVal c)
    have hm : acc * 10 + digitVal c + 1 ≤ (acc + 1) * 10 := by omega
    have hstep : (acc * 10 + digitVal c + 1) * 10 ^ rest.length
        ≤ ((acc + 1) * 10) * 10 ^ rest.length := Nat.mul_le_mul_right _ hm
    have hpow : ((acc + 1) * 10) * 10 ^ rest.length
        = (acc + 1) * 10 ^ (rest.length + 1) := by
      rw [pow_succ]; ring
    rw [natOfDigitsAux_cons, List.length_cons, ← hpow]
    exact Nat.lt_of_lt_of_le hrec hstep

/-- Decimal evaluation of an all-digit string is below ten to its length. -/
theorem natOfDigits_lt {s : Str} (hd : s.all Char.isDigit = true) :
    natOfDigits s < 10 ^ s.length := by
  have := natOfDigitsAux_lt hd 0
  simpa [natOfDigits] using this

/-- parse::<u16> succeeds on a non-empty all-digit string whose value fits
in sixteen bits, returning its decimal value. -/
theorem parseU16_digits {s : Str} (hne : s ≠ []) (hd : s.all Char.isDigit = true)
    (hle : natOfDigits s ≤ 65535) : parseU16 s = some (natOfDigits s) := by
  simp [parseU16, hne, hd, hle]

/-- For a non-empty all-digit string fitting in sixteen bits, the range
check holds exactly when the decimal value is within the ceiling. -/
theorem is_valid_range_iff {s : Str} (m : Nat) (hne : s ≠ [])
    (hd : s.all Char.isDigit = true) (hle : natOfDigits s ≤ 65535) :
    is_valid_range s m = true ↔ natOfDigits s ≤ m := by
  simp [is_valid_range, parseU16_digits hne hd hle]

/-- Taking a prefix preserves the all-digit property. -/
theorem all_take {s : Str} (hd : s.all Char.isDigit = true) (n : Nat) :
    (s.take n).all Char.isDigit = true := by
  rw [List.all_eq_true]
  intro x hx
  exact (List.all_eq_true.mp hd) x (List.take_subset n s hx)

/-- Dropping a prefix preserves the all-digit property. -/
theorem all_drop {s : Str} (hd : s.all Char.isDigit = true) (n : Nat) :
    (s.drop n).all Char.isDigit = true := by
  rw [List.all_eq_true]
  intro x hx
  exact (List.all_eq_true.mp hd) x (List.drop_subset n s hx)

end MailOrder

namespace MailOrder

/-- A list of positive length is not empty. -/
theorem ne_nil_of_length_eq {s : Str} {n : Nat} (h : s.length = n) (hn : 0 < n) :
    s ≠ [] := by
  intro e
  rw [e] at h
  simp at h
  omega

/-- Lengths and u16 parses of the three fields sliced from an 8-character
all-digit string: every slice is in bounds and every field parses. -/
theorem field_facts {s : Str} (h8 : s.length = 8) (hd : s.all Char.isDigit = true) :
    (s.take 2).length = 2 ∧ ((s.drop 2).take 2).length = 2 ∧ (s.drop 4).length = 4 ∧
    parseU16 (s.take 2) = some (natOfDigits (s.take 2)) ∧
    parseU16 ((s.drop 2).take 2) = some (natOfDigits ((s.drop 2).take 2)) ∧
    parseU16 (s.drop 4) = some (natOfDigits (s.drop 4)) := by
  have l1 : (s.take 2).length = 2 := by simp [List.length_take, h8]
  have l2 : ((s.drop 2).take 2).length = 2 := by simp [List.length_take, List.length_drop, h8]
  have l3 : (s.drop 4).length = 4 := by simp [List.length_drop, h8]
  have d1 := all_take hd 2
  have d2 := all_take (all_drop hd 2) 2
  have d3 := all_drop hd 4
  have b1 : natOfDigits (s.take 2) ≤ 65535 := by
    have := natOfDigits_lt d1
    rw [l1] at this
    omega
  have b2 : natOfDigits ((s.drop 2).take 2) ≤ 65535 := by
    have := natOfDigits_lt d2
    rw [l2] at this
    omega
  have b3 : natOfDigits (s.drop 4) ≤ 65535 := by
    have := natOfDigits_lt d3
    rw [l3] at this
    omega
  exact ⟨l1, l2, l3,
    parseU16_digits (ne_nil_of_length_eq l1 (by omega)) d1 b1,
    parseU16_digits (ne_nil_of_length_eq l2 (by omega)) d2 b2,
    parseU16_digits (ne_nil_of_length_eq l3 (by omega)) d3 b3⟩

/-- On an 8-character all-digit string, parse_date succeeds with the three
slices exactly when each field value is within its ceiling. -/
theorem parse_date_eq_ok_iff {s : Str} (h8 : s.length = 8)
    (hd : s.all Char.isDigit = true) :
    parse_date s = .ok (s.take 2, (s.drop 2).take 2, s.drop 4) ↔
      natOfDigits (s.take 2) ≤ VALID_DAYS ∧
      natOfDigits ((s.drop 2).take 2) ≤ VALID_MONTHS ∧
      natOfDigits (s.drop 4) ≤ VALID_YEARS := by
  obtain ⟨l1, l2, l3, p1, p2, p3⟩ := field_facts h8 hd
  have r1 := is_valid_range_iff VALID_DAYS
    (ne_nil_of_length_eq l1 (by omega)) (all_take hd 2) (by
      have := natOfDigits_lt (all_take hd 2)
      rw [l1] at this
      omega)
  have r2 := is_valid_range_iff VALID_MONTHS
    (ne_nil_of_length_eq l2 (by omega)) (all_take (all_drop hd 2) 2) (by
      have := natOfDigits_lt (all_take (all_drop hd 2) 2)
      rw [l2] at this
      omega)
  have r3 := is_valid_range_iff VALID_YEARS
    (ne_nil_of_length_eq l3 (by omega)) (all_drop hd 4) (by
      have := natOfDigits_lt (all_drop hd 4)
      rw [l3] at this
      omega)
  simp only [parse_date]
  by_cases hc : is_valid_range (s.take 2) VALID_DAYS = true
      ∧ is_valid_range ((s.drop 2).take 2) VALID_MONTHS = true
      ∧ is_valid_range (s.drop 4) VALID_YEARS = true
  · obtain ⟨c1, c2, c3⟩ := hc
    rw [if_pos (by rw [c1, c2, c3]; rfl)]
    simp [r1.mp c1, r2.mp c2, r3.mp c3]
  · rw [if_neg (by
      intro hb
      rw [Bool.and_eq_true, Bool.and_eq_true] at hb
      exact hc ⟨hb.1.1, hb.1.2, hb.2⟩)]
    constructor
    · intro h
      exact absurd h (by simp)
    · intro hb
      exact absurd ⟨r1.mpr hb.1, r2.mpr hb.2.1, r3.mpr hb.2.2⟩ hc

/-- On an 8-character all-digit string, parse_date fails (with the Date
error) exactly when some field value exceeds its ceiling. -/
theorem parse_date_eq_err_iff {s : Str} (h8 : s.length = 8)
    (hd : s.all Char.isDigit = true) :
    parse_date s = .error .date ↔
      ¬ (natOfDigits (s.take 2) ≤ VALID_DAYS ∧
         natOfDigits ((s.drop 2).take 2) ≤ VALID_MONTHS ∧
         natOfDigits (s.drop 4) ≤ VALID_YEARS) := by
  have hok := parse_date_eq_ok_iff h8 hd
  constructor
  · intro h hb
    have := hok.mpr hb
    rw [h] at this
    exact Except.noConfusion this
  · intro hb
    simp only [parse_date] at hok ⊢
    by_cases hc : (is_valid_range (s.take 2) VALID_DAYS
        && is_valid_range ((s.drop 2).take 2) VALID_MONTHS
        && is_valid_range (s.drop 4) VALID_YEARS) = true
    · rw [if_pos hc] at hok
      exact absurd (hok.mp rfl) hb
    · rw [if_neg hc]

/-- The three slices of a 2-2-4 concatenation recover its pieces. -/
theorem take_drop_fields (dd mm yy : Str) (hd2 : dd.length = 2) (hm2 : mm.length = 2) :
    (dd ++ mm ++ yy).take 2 = dd ∧ ((dd ++ mm ++ yy).drop 2).take 2 = mm ∧
    (dd ++ mm ++ yy).drop 4 = yy := by
  refine ⟨?_, ?_, ?_⟩
  · rw [List.append_assoc, List.take_left' hd2]
  · rw [List.append_assoc, List.drop_left' hd2, List.take_left' hm2]
  · have h4 : (dd ++ mm).length = 4 := by simp [hd2, hm2]
    rw [List.drop_left' h4]

end MailOrder

namespace MailOrder

/-- C1 (amended): for every non-empty category containing neither the
separator nor a dot, every non-empty dot-free extension, and every
2-digit day, 2-digit month and 4-digit year within the configured
ceilings, classifying category_ddmmyyyy.ext succeeds and returns the
destination target/yyyy/mm/dd/category.ext together with the source
parent directory.  The dot restrictions are forced by with_extension,
which replaces an existing dot-suffix of the category (see the
counterexample), and a dotted or empty extension changes where the stem
ends. -/
theorem C1_classify_valid_filename (parent target : RPath) (cat ext dd mm yyyy : Str)
    (hcat : cat ≠ []) (hsep : SEPARATOR ∉ cat) (hdot : '.' ∉ cat)
    (hext : ext ≠ []) (hedot : '.' ∉ ext)
    (hd2 : dd.length = 2) (hdd : dd.all Char.isDigit = true)
    (hdv : natOfDigits dd ≤ VALID_DAYS)
    (hm2 : mm.length = 2) (hmd : mm.all Char.isDigit = true)
    (hmv : natOfDigits mm ≤ VALID_MONTHS)
    (hy4 : yyyy.length = 4) (hyd : yyyy.all Char.isDigit = true)
    (hyv : natOfDigits yyyy ≤ VALID_YEARS) :
    extract_dst_path parent ((cat ++ SEPARATOR :: (dd ++ mm ++ yyyy)) ++ '.' :: ext) target
      = .ok (parent, target ++ [yyyy, mm, dd, cat ++ '.' :: ext]) := by
  have hA : cat ++ SEPARATOR :: (dd ++ mm ++ yyyy) ≠ [] := by
    cases cat <;> simp
  have hfse : fileStemExt ((cat ++ SEPARATOR :: (dd ++ mm ++ yyyy)) ++ '.' :: ext)
      = (cat ++ SEPARATOR :: (dd ++ mm ++ yyyy), some ext) := fileStemExt_append hA hedot
  have hsuffix : extract_suffix ((cat ++ SEPARATOR :: (dd ++ mm ++ yyyy)) ++ '.' :: ext)
      = .ok ext := by
    simp only [extract_suffix, hfse]
  have hsplit : split_into_parent_date ((cat ++ SEPARATOR :: (dd ++ mm ++ yyyy)) ++ '.' :: ext)
      = .ok (cat, dd ++ mm ++ yyyy) := by
    simp only [split_into_parent_date, hfse, splitOnce_append hsep]
  have hlen : (dd ++ mm ++ yyyy).length = 8 := by
    simp [hd2, hm2, hy4]
  have hdig : (dd ++ mm ++ yyyy).all Char.isDigit = true := by
    simp [List.all_append, hdd, hmd, hyd]
  have hfmt : is_valid_fmt (dd ++ mm ++ yyyy) = true := by
    unfold is_valid_fmt
    rw [hlen, hdig]
    rfl
  have hval : validate (dd ++ mm ++ yyyy) = .ok (dd ++ mm ++ yyyy) := by
    unfold validate
    rw [hfmt]
    rfl
  obtain ⟨t1, t2, t3⟩ := take_drop_fields dd mm yyyy hd2 hm2
  have hpd : parse_date (dd ++ mm ++ yyyy) = .ok (dd, mm, yyyy) := by
    have h := (parse_date_eq_ok_iff hlen hdig).mpr
      (by rw [t1, t2, t3]; exact ⟨hdv, hmv, hyv⟩)
    rw [t1, t2, t3] at h
    exact h
  have hset : setExtName cat ext = cat ++ '.' :: ext := by
    simp [setExtName, fileStemExt_of_not_mem hdot, hext]
  simp only [extract_dst_path, hsuffix, hsplit, hval, hpd, hset]

/-- C1 counterexample: the category a.b is non-empty and separator-free,
so the claim promises destination target/2024/10/01/a.b.txt, but
classification of a.b_01102024.txt succeeds with destination component
a.txt instead — with_extension replaces the trailing .b of the category. -/
theorem C1_dotted_category_counterexample :
    extract_dst_path ["parent".data] ("a.b_01102024.txt").data ["target".data]
      = .ok (["parent".data],
        ["target".data, "2024".data, "10".data, "01".data, "a.txt".data])
    ∧ ("a.txt").data ≠ ("a.b.txt").data := by
  constructor
  · rfl
  · decide

/-- C1 witness: the amended theorem applied to the concrete filename
example-about_01102024.txt. -/
theorem C1_classify_valid_filename_witness :
    extract_dst_path ["parent".data]
        (("example-about".data ++ SEPARATOR :: ("01".data ++ "10".data ++ "2024".data))
          ++ '.' :: "txt".data) ["target".data]
      = .ok (["parent".data],
        ["target".data ,"2024".data, "10".data, "01".data, "example-about.txt".data]) := by
  have h := C1_classify_valid_filename ["parent".data] ["target".data]
    ("example-about").data ("txt").data ("01").data ("10").data ("2024").data
    (by decide) (by decide) (by decide) (by decide) (by decide)
    (by decide) (by decide) (by decide)
    (by decide) (by decide) (by decide)
    (by decide) (by decide) (by decide)
  simpa using h

end MailOrder

namespace MailOrder

/-- A string that is not an 8-character all-digit string fails the format
check. -/
theorem is_valid_fmt_false {s : Str}
    (h : ¬ (s.length = 8 ∧ s.all Char.isDigit = true)) :
    is_valid_fmt s = false := by
  cases hf : is_valid_fmt s
  · rfl
  · exfalso
    unfold is_valid_fmt at hf
    rw [Bool.and_eq_true] at hf
    have hlen : s.length = DATE_LENGTH := by simpa using hf.1
    exact h ⟨hlen, hf.2⟩

/-- validate fails with the Date error on a string failing the format
check. -/
theorem validate_err {s : Str} (h : is_valid_fmt s = false) :
    validate s = .error .date := by
  unfold validate
  rw [h]
  rfl

/-- The main.rs date handling rejects, with the Date error, any iso
segment that is not an 8-character all-digit string. -/
theorem composeM_err {t : RPath} {about iso ext : Str}
    (h : ¬ (iso.length = 8 ∧ iso.all Char.isDigit = true)) :
    composeM t about iso ext = .error .date := by
  unfold composeM
  have hb : (iso.length == 8 && iso.all Char.isDigit) = false := by
    cases hf : (iso.length == 8 && iso.all Char.isDigit)
    · rfl
    · rw [Bool.and_eq_true] at hf
      have hlen : iso.length = 8 := by simpa using hf.1
      exact absurd ⟨hlen, hf.2⟩ h
  rw [hb]
  rfl

/-- A string containing the separator is not all digits. -/
theorem all_digit_false_of_sep_mem {s : Str} (h : SEPARATOR ∈ s) :
    s.all Char.isDigit = false := by
  cases hf : s.all Char.isDigit
  · rfl
  · exfalso
    have := (List.all_eq_true.mp hf) SEPARATOR h
    exact absurd this (by decide)

/-- The main.rs classifier on a filename whose stem has at least two
separators reads the category and the second segment, and its result is
computed by composeM from those two pieces and the extension alone — the
text after the second separator is never examined. -/
theorem extract_main_two_segs (target : RPath) (cat seg2 rest ext : Str)
    (h1 : SEPARATOR ∉ cat) (h2 : SEPARATOR ∉ seg2) (hedot : '.' ∉ ext) :
    extract_dst_path_main
        ((cat ++ SEPARATOR :: (seg2 ++ SEPARATOR :: rest)) ++ '.' :: ext) target
      = composeM target cat seg2 ext := by
  have hA : cat ++ SEPARATOR :: (seg2 ++ SEPARATOR :: rest) ≠ [] := by
    cases cat <;> simp
  have hfse := fileStemExt_append hA hedot
  have hsa : splitAll SEPARATOR (cat ++ SEPARATOR :: (seg2 ++ SEPARATOR :: rest))
      = cat :: seg2 :: splitAll SEPARATOR rest := by
    rw [splitAll_append h1, splitAll_append h2]
  simp only [extract_dst_path_main, hfse, hsa, List.get?]

end MailOrder

namespace MailOrder

/-- C4 (amended): in the utils.rs revision, field validation of an
8-character all-digit date is an upper-bound-only range check — each field
is accepted exactly when its decimal value does not exceed its ceiling
(day 31, month 12, year 2099) — and concretely 32132024 is rejected with
the Date error while 00002099 is accepted.  The main.rs revision performs
no field range check at all (see the counterexample). -/
theorem C4_upper_bound_only_validation :
    (∀ s : Str, s.length = 8 → s.all Char.isDigit = true →
      (parse_date s = .ok (s.take 2, (s.drop 2).take 2, s.drop 4) ↔
        natOfDigits (s.take 2) ≤ VALID_DAYS ∧
        natOfDigits ((s.drop 2).take 2) ≤ VALID_MONTHS ∧
        natOfDigits (s.drop 4) ≤ VALID_YEARS))
    ∧ parse_date ("32132024").data = .error .date
    ∧ parse_date ("00002099").data = .ok (("00").data, ("00").data, ("2099").data) := by
  refine ⟨fun s h8 hd => parse_date_eq_ok_iff h8 hd, ?_, ?_⟩
  · rfl
  · rfl

/-- C4 counterexample: the claim says the date 32132024 (day 32) is
rejected with the date error, but the main.rs revision classifies
a_32132024.txt successfully — there is no field range validation in that
revision, and the file is routed to target/2024/13/32/a.txt. -/
theorem C4_main_accepts_day_32 :
    extract_dst_path_main ("a_32132024.txt").data ["target".data]
      = .ok ["target".data, "2024".data, "13".data, "32".data, "a.txt".data] := rfl

/-- C4 witness: the general clause of the amended theorem evaluated on the
in-range date 01102024. -/
theorem C4_upper_bound_only_validation_witness :
    parse_date ("01102024").data
      = .ok (("01102024").data.take 2, (("01102024").data.drop 2).take 2,
        ("01102024").data.drop 4) :=
  (C4_upper_bound_only_validation.1 ("01102024").data rfl rfl).mpr (by decide)

/-- C9 (confirmed): once a string passes the format check (length exactly
8, all ASCII digits), field extraction is total: the three slices have
lengths 2, 2 and 4 (so the byte ranges [0..2], [2..4], [4..8] of the
source are in bounds and panic-free), each field parses as a u16, and
parse_date either succeeds with exactly these slices or fails with the
Date error, the latter happening precisely when some field exceeds its
ceiling. -/
theorem C9_field_extraction_total (s : Str) (h8 : s.length = 8)
    (hd : s.all Char.isDigit = true) :
    (s.take 2).length = 2 ∧ ((s.drop 2).take 2).length = 2 ∧ (s.drop 4).length = 4 ∧
    parseU16 (s.take 2) = some (natOfDigits (s.take 2)) ∧
    parseU16 ((s.drop 2).take 2) = some (natOfDigits ((s.drop 2).take 2)) ∧
    parseU16 (s.drop 4) = some (natOfDigits (s.drop 4)) ∧
    (parse_date s = .ok (s.take 2, (s.drop 2).take 2, s.drop 4) ∨
      parse_date s = .error .date) ∧
    (parse_date s = .error .date ↔
      ¬ (natOfDigits (s.take 2) ≤ VALID_DAYS ∧
         natOfDigits ((s.drop 2).take 2) ≤ VALID_MONTHS ∧
         natOfDigits (s.drop 4) ≤ VALID_YEARS)) := by
  obtain ⟨l1, l2, l3, p1, p2, p3⟩ := field_facts h8 hd
  refine ⟨l1, l2, l3, p1, p2, p3, ?_, parse_date_eq_err_iff h8 hd⟩
  by_cases hb : natOfDigits (s.take 2) ≤ VALID_DAYS ∧
      natOfDigits ((s.drop 2).take 2) ≤ VALID_MONTHS ∧
      natOfDigits (s.drop 4) ≤ VALID_YEARS
  · exact Or.inl ((parse_date_eq_ok_iff h8 hd).mpr hb)
  · exact Or.inr ((parse_date_eq_err_iff h8 hd).mpr hb)

/-- C9 witness: the totality theorem evaluated on the concrete format-valid
date 10102024; its day field parses. -/
theorem C9_field_extraction_total_witness :
    parseU16 (("10102024").data.take 2) = some (natOfDigits (("10102024").data.take 2)) :=
  (C9_field_extraction_total ("10102024").data rfl rfl).2.2.2.1

end MailOrder

namespace MailOrder

/-- C5 (amended): only the older main.rs revision takes the date as the
second separator-delimited segment: for any stem of the form
category_seg2_rest, its classifier computes its result by composeM from
the category, seg2 and the extension alone, never examining rest.  The
newer utils.rs revision instead takes everything after the first
separator as the encoded date (see the counterexample). -/
theorem C5_main_ignores_after_second_segment (target : RPath)
    (cat seg2 rest ext : Str)
    (h1 : SEPARATOR ∉ cat) (h2 : SEPARATOR ∉ seg2) (hedot : '.' ∉ ext) :
    extract_dst_path_main
        ((cat ++ SEPARATOR :: (seg2 ++ SEPARATOR :: rest)) ++ '.' :: ext) target
      = composeM target cat seg2 ext :=
  extract_main_two_segs target cat seg2 rest ext h1 h2 hedot

/-- C5 counterexample: for cat_01102024_junk.txt the second segment
01102024 is a valid date, so a classifier examining only the second
segment would behave as on cat_01102024.txt; the utils.rs classifier
instead validates the whole remainder 01102024_junk and rejects the file
with the Date error, so the text after the further separator is examined
rather than ignored. -/
theorem C5_utils_examines_text_after_second_segment :
    extract_dst_path [] ("cat_01102024_junk.txt").data ["target".data]
      = .error .date
    ∧ extract_dst_path [] ("cat_01102024.txt").data ["target".data]
      = .ok ([], ["target".data, "2024".data, "10".data, "01".data, "cat.txt".data]) := by
  exact ⟨rfl, rfl⟩

/-- C5 witness: the amended theorem applied to the stem cat_01102024_junk
with extension txt. -/
theorem C5_main_ignores_after_second_segment_witness :
    extract_dst_path_main
        ((("cat").data ++ SEPARATOR :: (("01102024").data ++ SEPARATOR :: ("junk").data))
          ++ '.' :: ("txt").data) ["target".data]
      = composeM ["target".data] ("cat").data ("01102024").data ("txt").data :=
  C5_main_ignores_after_second_segment ["target".data] ("cat").data ("01102024").data
    ("junk").data ("txt").data (by decide) (by decide) (by decide)

/-- C6 (amended): in the utils.rs revision, every filename made of a
non-empty separator-free stem, a dot, and a dot-free extension is
rejected with the Separator error (not the Parts and not the Date error).
The older main.rs revision has no Separator error kind at all and rejects
such names with its Parts error (see the counterexample). -/
theorem C6_no_separator_in_stem (parent target : RPath) (stem ext : Str)
    (hstem : stem ≠ []) (hsep : SEPARATOR ∉ stem) (hedot : '.' ∉ ext) :
    extract_dst_path parent (stem ++ '.' :: ext) target = .error .separator := by
  have hfse := fileStemExt_append hstem hedot
  have hsuffix : extract_suffix (stem ++ '.' :: ext) = .ok ext := by
    simp only [extract_suffix, hfse]
  have hsplit : split_into_parent_date (stem ++ '.' :: ext) = .error .separator := by
    simp only [split_into_parent_date, hfse, splitOnce_of_not_mem hsep]
  simp only [extract_dst_path, hsuffix, hsplit]

/-- C6 counterexample: classification of example-about.txt in the main.rs
revision fails with the Parts error, not with a missing-separator kind —
that revision's error enum has no Separator variant, so the claim that a
separator-free stem fails with MissingSeparator (and not MissingParts)
does not hold for it. -/
theorem C6_main_fails_with_parts :
    extract_dst_path_main ("example-about.txt").data ["target".data]
      = .error ProcessErrorM.parts := rfl

/-- C6 witness: the amended theorem applied to example-about.txt. -/
theorem C6_no_separator_in_stem_witness :
    extract_dst_path ["parent".data] (("example-about").data ++ '.' :: ("txt").data)
        ["target".data]
      = .error .separator :=
  C6_no_separator_in_stem ["parent".data] ["target".data] ("example-about").data
    ("txt").data (by decide) (by decide) (by decide)

/-- C7 (confirmed): for every filename with a dot-free extension whose stem
splits as category_rest with a separator-free category, if the second
separator-delimited segment of the stem is not exactly 8 characters of
ASCII digits, then classification fails with the Date (invalid date) error
in both revisions; the format check happens before any field extraction,
which the error kind witnesses (field range checking can only produce the
same Date error, and the failure here occurs for every out-of-format
segment regardless of field values). -/
theorem C7_bad_second_segment_invalid_date (parent target target2 : RPath)
    (cat rest ext : Str)
    (hsep : SEPARATOR ∉ cat) (hedot : '.' ∉ ext)
    (hbad : ¬ ((firstPart rest).length = 8 ∧ (firstPart rest).all Char.isDigit = true)) :
    (splitAll SEPARATOR (cat ++ SEPARATOR :: rest)).get? 1 = some (firstPart rest)
    ∧ extract_dst_path parent ((cat ++ SEPARATOR :: rest) ++ '.' :: ext) target
      = .error .date
    ∧ extract_dst_path_main ((cat ++ SEPARATOR :: rest) ++ '.' :: ext) target2
      = .error ProcessErrorM.date := by
  have hA : cat ++ SEPARATOR :: rest ≠ [] := by
    cases cat <;> simp
  have hfse := fileStemExt_append hA hedot
  have hseg : (splitAll SEPARATOR (cat ++ SEPARATOR :: rest)).get? 1
      = some (firstPart rest) := by
    rw [splitAll_append hsep]
    simpa using splitAll_get_zero rest
  have hfmt : is_valid_fmt rest = false := by
    by_cases hm : SEPARATOR ∈ rest
    · unfold is_valid_fmt
      rw [all_digit_false_of_sep_mem hm, Bool.and_false]
    · have hfp : firstPart rest = rest := by
        simp [firstPart, splitOnce_of_not_mem hm]
      rw [hfp] at hbad
      exact is_valid_fmt_false hbad
  have hsuffix : extract_suffix ((cat ++ SEPARATOR :: rest) ++ '.' :: ext)
      = .ok ext := by
    simp only [extract_suffix, hfse]
  have hsplit : split_into_parent_date ((cat ++ SEPARATOR :: rest) ++ '.' :: ext)
      = .ok (cat, rest) := by
    simp only [split_into_parent_date, hfse, splitOnce_append hsep]
  refine ⟨hseg, ?_, ?_⟩
  · simp only [extract_dst_path, hsuffix, hsplit, validate_err hfmt]
  · simp only [extract_dst_path_main, hfse, splitAll_append hsep, List.get?, hseg]
    rw [splitAll_get_zero rest]
    exact composeM_err hbad

/-- C7 witness: the theorem applied to about_0110202.txt, whose date
segment has only 7 digits. -/
theorem C7_bad_second_segment_invalid_date_witness :
    (splitAll SEPARATOR (("about").data ++ SEPARATOR :: ("0110202").data)).get? 1
      = some (firstPart ("0110202").data)
    ∧ extract_dst_path ["parent".data]
        ((("about").data ++ SEPARATOR :: ("0110202").data) ++ '.' :: ("txt").data)
        ["target".data]
      = .error .date
    ∧ extract_dst_path_main
        ((("about").data ++ SEPARATOR :: ("0110202").data) ++ '.' :: ("txt").data)
        ["target2".data]
      = .error ProcessErrorM.date :=
  C7_bad_second_segment_invalid_date ["parent".data] ["target".data] ["target2".data]
    ("about").data ("0110202").data ("txt").data (by decide) (by decide) (by decide)

end MailOrder

namespace MailOrder

/-- C2 (code bug): a batch with one well-named entry whose copy fails.
The utils.rs handle still attempts and performs remove_file on the source
(the io result of the create/copy stage is only mapped over, never
checked), so the source file is deleted even though its relocation
failed, and the batch returns Ok.  The claim — a failed entry is left
untouched in the inbox — is what the spec states and what the main.rs
revision does; the utils.rs code contradicts it, deleting data whose copy
never happened, while its own error type carries an unused IO variant
evidently meant to propagate exactly this failure. -/
theorem C2_utils_removes_source_despite_copy_failure :
    handleU ["inbox".data] ["target".data]
        [⟨true, ("a_01102024.txt").data, true, false, true⟩]
      = (none, [⟨("a_01102024.txt").data, true, true, true, true⟩]) := rfl

/-- C3 (code bug): a batch with one well-named entry whose create-dir and
copy both fail.  The utils.rs handle returns Ok (first component none)
because the io results of the relocation steps are discarded instead of
being converted through the From impl into the IO error variant; the
failure of this entry is silently dropped, contradicting the claim that
the batch result is Ok only if no entry failed. -/
theorem C3_utils_batch_ok_despite_io_failure :
    handleU ["inbox".data] ["target".data]
        [⟨true, ("b_01102024.txt").data, false, false, true⟩]
      = (none, [⟨("b_01102024.txt").data, true, false, true, true⟩]) := rfl

/-- C8 (amended): the newer utils.rs batch step skips an unreadable
directory entry silently — the batch behaves exactly as if the entry were
absent, so it neither panics nor fails because of it and the remaining
entries are still processed.  The older main.rs revision instead panics
on such an entry (see the counterexample). -/
theorem C8_utils_skips_unreadable_entry (parent target : RPath) (e : DirEntry)
    (rest : List DirEntry) (h : e.readable = false) :
    handleU parent target (e :: rest) = handleU parent target rest := by
  simp only [handleU, h]
  rfl

/-- C8 counterexample: a listing containing an entry the directory read
could not produce makes the main.rs batch step panic (the expect on the
entry), contradicting the claim that such entries are skipped silently
without panicking. -/
theorem C8_main_panics_on_unreadable_entry :
    handleM ["target".data] [⟨false, [], true, true, true⟩]
      = (BatchOutcomeM.panics, []) := rfl

/-- C8 witness: the amended theorem applied to a concrete two-entry
listing whose first entry is unreadable. -/
theorem C8_utils_skips_unreadable_entry_witness :
    handleU ["inbox".data] ["target".data]
        [⟨false, ("x").data, true, true, true⟩,
         ⟨true, ("a_01102024.txt").data, true, true, true⟩]
      = handleU ["inbox".data] ["target".data]
        [⟨true, ("a_01102024.txt").data, true, true, true⟩] :=
  C8_utils_skips_unreadable_entry ["inbox".data] ["target".data]
    ⟨false, ("x").data, true, true, true⟩
    [⟨true, ("a_01102024.txt").data, true, true, true⟩] rfl

/-- C10 (confirmed): the utils.rs batch processor short-circuits at the
first entry whose classification fails: when every earlier readable entry
classifies successfully and entry e fails with error pe, the batch result
is exactly pe, the effect traces are exactly those of the earlier entries
(their relocation steps have already run), and no entry after e is
classified or relocated — the traces contain nothing from the tail. -/
theorem C10_short_circuit_on_classification_error (parent target : RPath)
    (l1 l2 : List DirEntry) (e : DirEntry) (pe : ProcessError)
    (h1 : ∀ x ∈ l1, x.readable = true →
      ∃ v, extract_dst_path parent x.name target = .ok v)
    (he : e.readable = true)
    (hc : extract_dst_path parent e.name target = .error pe) :
    handleU parent target (l1 ++ e :: l2)
      = (some pe, (handleU parent target l1).2) := by
  induction l1 with
  | nil =>
    simp only [List.nil_append, handleU, he, hc]
    rfl
  | cons x l1 ih =>
    have ihx := ih (fun y hy hyr => h1 y (List.mem_cons_of_mem x hy) hyr)
    by_cases hr : x.readable = true
    · obtain ⟨v, hv⟩ := h1 x (List.mem_cons_self x l1) hr
      simp only [List.cons_append, handleU, hr, hv, if_true, List.append_eq, ihx]
    · have hrf : x.readable = false := by
        cases hx : x.readable
        · rfl
        · exact absurd hx hr
      simp only [List.cons_append, handleU, hrf, Bool.false_eq_true, if_false,
        List.append_eq, ihx]

/-- C10 witness: the short-circuit theorem applied to a concrete listing
with one good entry, then an entry without a separator in its stem, then
another good entry. -/
theorem C10_short_circuit_on_classification_error_witness :
    handleU ["inbox".data] ["target".data]
        ([⟨true, ("a_01102024.txt").data, true, true, true⟩]
          ++ (⟨true, ("nodate.txt").data, true, true, true⟩ : DirEntry)
            :: [⟨true, ("b_01102024.txt").data, true, true, true⟩])
      = (some ProcessError.separator,
          (handleU ["inbox".data] ["target".data]
            [⟨true, ("a_01102024.txt").data, true, true, true⟩]).2) := by
  have h := C10_short_circuit_on_classification_error ["inbox".data] ["target".data]
    [⟨true, ("a_01102024.txt").data, true, true, true⟩]
    [⟨true, ("b_01102024.txt").data, true, true, true⟩]
    ⟨true, ("nodate.txt").data, true, true, true⟩ ProcessError.separator
    (by
      intro x hx hxr
      simp only [List.mem_singleton] at hx
      subst hx
      exact ⟨_, rfl⟩)
    rfl rfl
  exact h

end MailOrder
